import Mathlib

/-!
Shallow embedding of `pymailer.py` / `config.py` (a python bulk mailer) and
proofs about the embedded operations.  Strings are modelled as Lean `String`
(or `List Char` where character-level reasoning is needed); files are modelled
by their contents; the SMTP transport is modelled by an oracle giving the
outcome of each attempt; Python exceptions are modelled with `Except`.
-/

set_option autoImplicit false

namespace PyMailer

/-- Python exceptions raised by the modelled code paths. -/
inductive PyErr where
  | nameError
  | attributeError
  | keyError
  | valueError
  | indexError
  | encryptModeError
  | emptyHtmlError
  deriving DecidableEq, Repr

/-- Python string slicing `s[:n]`, used by `_stats` as `message[:5]`. -/
def pyTake (s : String) (n : Nat) : String :=
  String.mk (s.data.take n)

/-- Split a character list at every occurrence of `sep` (Python `str.split`):
`splitCh '.' "a.b" = ["a", "b"]`, `splitCh '.' "" = [""]`. -/
def splitCh (sep : Char) : List Char → List (List Char)
  | [] => [[]]
  | c :: cs =>
    match splitCh sep cs with
    | [] => [[]]
    | h :: t => if c = sep then [] :: h :: t else (c :: h) :: t

/-- Python `content.split(sep)` on strings. -/
def pySplit (sep : Char) (s : String) : List String :=
  (splitCh sep s.data).map String.mk

/-! ### Stats Recorder (`PyMailer._stats`, pymailer.py lines 31-59)

The stats file is read, split on newlines into `stats_entries`; the loop
replaces every nonempty entry whose first five characters equal the first
five characters of `message` (setting `is_existing_entry`); if no entry
matched, `message` is appended; finally the nonempty entries are written
back, one per line. -/

/-- One matching step of the `_stats` loop: `entry` is replaced when it is
nonempty and shares its first five characters with `message`. -/
def statsMatches (message entry : String) : Bool :=
  !(entry == "") && (pyTake message 5 == pyTake entry 5)

/-- The `for i, entry in enumerate(stats_entries)` loop of `_stats`: returns
the updated entry list together with the `is_existing_entry` flag. -/
def statsLoop (message : String) : List String → List String × Bool
  | [] => ([], false)
  | e :: rest =>
    let r := statsLoop message rest
    if statsMatches message e then (message :: r.1, true) else (e :: r.1, r.2)

/-- `_stats` at the entry-list level: replace matching entries in place, or
append the message when no entry matched. -/
def statsUpdate (entries : List String) (message : String) : List String :=
  let r := statsLoop message entries
  if r.2 then r.1 else r.1 ++ [message]

/-- The lines actually written back by `_stats` (empty entries are skipped,
each written entry is followed by a newline). -/
def statsWritten (entries : List String) (message : String) : List String :=
  (statsUpdate entries message).filter (fun e => !(e == ""))

/-- `_stats` at the file-contents level: read, split on newlines, update,
write every nonempty entry followed by `"\n"`. -/
def statsFileUpdate (content : String) (message : String) : String :=
  String.join ((statsWritten (pySplit '\n' content) message).map (fun e => e ++ "\n"))

/-- Two stats entries are key-distinct if either is empty or their five
character key prefixes differ. -/
abbrev keyDistinct (a b : String) : Prop :=
  a = "" ∨ b = "" ∨ pyTake a 5 ≠ pyTake b 5

/-- No two entries of the list share a five-character key prefix. -/
abbrev NoDupKeys (l : List String) : Prop :=
  l.Pairwise keyDistinct

/-! ### Email Validator (`PyMailer._validate_email`, pymailer.py lines 61-73)

The python code rejects strings shorter than 5 characters, then matches the
regex
`^[a-zA-Z0-9_-]+(?:\.[a-zA-Z0-9_-]+)*@(?:[a-zA-Z0-9](?:[a-zA-Z0-9-]*[a-zA-Z0-9])?\.)+[a-zA-Z0-9](?:[a-zA-Z0-9-]*[a-zA-Z0-9])?$`,
then rejects non-ASCII strings (`encode('ascii')`).  The regex language is
embedded by splitting: the local part is dot-separated nonempty runs of
`[a-zA-Z0-9_-]`, the domain is two or more dot-separated labels, each a
nonempty run of `[a-zA-Z0-9-]` beginning and ending with an alphanumeric
character.  Python's `$` anchor (no `re.MULTILINE`) also matches just before
one final newline, which the embedding reproduces. -/

/-- Characters allowed in a local-part chunk: `[a-zA-Z0-9_-]`. -/
def isLocalChar (c : Char) : Bool :=
  c.isAlphanum || c == '_' || c == '-'

/-- Characters allowed anywhere in a domain label: `[a-zA-Z0-9-]`. -/
def isLabelChar (c : Char) : Bool :=
  c.isAlphanum || c == '-'

/-- A local-part chunk: nonempty run of `[a-zA-Z0-9_-]`. -/
def chunkOk (chunk : List Char) : Bool :=
  !chunk.isEmpty && chunk.all isLocalChar

/-- `[a-zA-Z0-9_-]+(?:\.[a-zA-Z0-9_-]+)*`: every dot-separated chunk is ok. -/
def localOk (l : List Char) : Bool :=
  (splitCh '.' l).all chunkOk

/-- `[a-zA-Z0-9](?:[a-zA-Z0-9-]*[a-zA-Z0-9])?`: nonempty, label characters
only, first and last character alphanumeric. -/
def labelOk (lab : List Char) : Bool :=
  !lab.isEmpty && lab.all isLabelChar
    && (lab.headD '-').isAlphanum && (lab.getLastD '-').isAlphanum

/-- `(?:label\.)+label`: at least two dot-separated labels, all ok. -/
def domainOk (d : List Char) : Bool :=
  decide (2 ≤ (splitCh '.' d).length) && (splitCh '.' d).all labelOk

/-- The full regex as a whole-string match: exactly one `@`, valid local part
and valid domain (both character classes exclude `@`). -/
def patternOk (s : List Char) : Bool :=
  match splitCh '@' s with
  | [l, d] => localOk l && domainOk d
  | _ => false

/-- `re.match(pattern$, s)`: the pattern matches the whole string, or the
string minus one final newline (`$` semantics without `re.MULTILINE`). -/
def pyRegexMatch (s : List Char) : Bool :=
  patternOk s || ((s.getLastD ' ') == '\n' && patternOk s.dropLast)

/-- `PyMailer._validate_email`: `None` for too-short strings, regex
non-matches, and non-ASCII strings; the address itself otherwise. -/
def validate_email (s : String) : Option String :=
  if s.data.length < 5 then none
  else if !pyRegexMatch s.data then none
  else if !(s.data.all (fun c => decide (c.toNat ≤ 127))) then none
  else some s

/-! Specification-side predicates, written from the spec's words: the
documented pattern is stated as an explicit decomposition of the string into
dot-separated chunks and labels (via `joinSep`), rather than through
`splitCh`. -/

/-- Interleave `sep` between the chunks and concatenate. -/
def joinSep (sep : Char) (chunks : List (List Char)) : List Char :=
  (chunks.intersperse [sep]).flatten

/-- Spec reading of the local part: some nonempty sequence of valid chunks
joined by dots. -/
def SpecLocal (l : List Char) : Prop :=
  ∃ chunks : List (List Char),
    chunks ≠ [] ∧ (∀ c ∈ chunks, chunkOk c = true) ∧ l = joinSep '.' chunks

/-- Spec reading of the domain: at least two valid labels joined by dots,
the final label having at least `minFinal` characters. -/
def SpecDomain (minFinal : Nat) (d : List Char) : Prop :=
  ∃ labs : List (List Char),
    2 ≤ labs.length ∧ (∀ lab ∈ labs, labelOk lab = true)
      ∧ minFinal ≤ (labs.getLastD []).length ∧ d = joinSep '.' labs

/-- Spec reading of the documented `local-part@domain` pattern. -/
def SpecPattern (minFinal : Nat) (s : List Char) : Prop :=
  ∃ l d, s = l ++ '@' :: d ∧ SpecLocal l ∧ SpecDomain minFinal d

/-- All characters printable ASCII (codes 32-126). -/
def printableAscii (s : String) : Prop :=
  ∀ c ∈ s.data, 32 ≤ c.toNat ∧ c.toNat ≤ 126

/-- All characters ASCII (codes 0-127), i.e. `encode('ascii')` succeeds. -/
def asciiOnly (s : String) : Prop :=
  ∀ c ∈ s.data, c.toNat ≤ 127

/-- The acceptance predicate exactly as claim C6 states it: minimum length,
printable ASCII, documented pattern with a 2+ character final label. -/
def ClaimC6Accepts (s : String) : Prop :=
  5 ≤ s.data.length ∧ printableAscii s ∧ SpecPattern 2 s.data

/-- The amended acceptance predicate: minimum length, ASCII, documented
pattern with a 1+ character final label, allowing one trailing newline. -/
def AmendedC6Accepts (s : String) : Prop :=
  5 ≤ s.data.length ∧ asciiOnly s
    ∧ (SpecPattern 1 s.data
        ∨ (s.data.getLastD ' ' = '\n' ∧ SpecPattern 1 s.data.dropLast))

/-- Decidable form of `SpecPattern`, used to evaluate it on concrete
strings. -/
def specPatternB (minFinal : Nat) (s : List Char) : Bool :=
  match splitCh '@' s with
  | [l, d] => localOk l && domainOk d
      && decide (minFinal ≤ ((splitCh '.' d).getLastD []).length)
  | _ => false


/-! ### Recipient Loader (`PyMailer._parse_csv`, pymailer.py lines 128-184)

Rows are the csv rows; the first is the header.  For each data row the code
assigns every column value into the dict `variables` under its header name;
at the `email` column a valid value makes it append `variables` (by
reference, so later columns still land in the appended dict) to
`recipients_list`, an invalid value is written to the bad-email sink and the
dict is not appended.  `row[j]` raises `IndexError` when the row is shorter
than the header (modelled as an up-front length check). -/

/-- A python dict of strings, as an insertion-ordered association list. -/
abbrev Dict := List (String × String)

/-- Python dict assignment `d[k] = v`: overwrite the existing binding in
place, or append a new one. -/
def dictSet (d : Dict) (k v : String) : Dict :=
  if d.any (fun p => p.1 == k) then d.map (fun p => if p.1 == k then (k, v) else p)
  else d ++ [(k, v)]

/-- Python `d.get(k)`: `None` when the key is absent. -/
def dictGet (d : Dict) (k : String) : Option String :=
  (d.find? (fun p => p.1 == k)).map (fun p => p.2)

/-- One column of a data row: the fold state is the current `variables`
dict, the number of times it has been appended to `recipients_list`, and the
values written to the bad-email sink. -/
def colStep (acc : Dict × Nat × List String) (p : String × String) :
    Dict × Nat × List String :=
  if p.1 == "email" then
    if (validate_email p.2).isSome then (dictSet acc.1 p.1 p.2, acc.2.1 + 1, acc.2.2)
    else (acc.1, acc.2.1, acc.2.2 ++ [p.2])
  else (dictSet acc.1 p.1 p.2, acc.2.1, acc.2.2)

/-- The inner `for j, var_name in enumerate(variables_names)` loop over the
header-name/value pairs of one row. -/
def processPairs (pairs : List (String × String)) : Dict × Nat × List String :=
  pairs.foldl colStep ([], 0, [])

/-- One data row of `_parse_csv` (IndexError when the row is shorter than
the header, since every `row[j]` with `j < len(header)` is read). -/
def processRow (hdr row : List String) : Except PyErr (Dict × Nat × List String) :=
  if row.length < hdr.length then Except.error PyErr.indexError
  else Except.ok (processPairs (hdr.zip row))

/-- The outer row loop of `_parse_csv`: accumulates the recipient records
(in row order; a row's dict is appended once per valid email column) and the
bad-email sink lines. -/
def parseRows (hdr : List String) : List (List String) → Except PyErr (List Dict × List String)
  | [] => Except.ok ([], [])
  | row :: rest =>
    match processRow hdr row with
    | Except.error e => Except.error e
    | Except.ok (vars, app, bad) =>
      match parseRows hdr rest with
      | Except.error e => Except.error e
      | Except.ok (recs, bads) =>
        Except.ok (List.replicate app vars ++ recs, bad ++ bads)

/-- `_parse_csv` on the parsed csv rows (header first; an empty file has no
header row and yields nothing). -/
def parse_csv (rows : List (List String)) : Except PyErr (List Dict × List String) :=
  match rows with
  | [] => Except.ok ([], [])
  | hdr :: dataRows => parseRows hdr dataRows

/-- The value of the row's `email` column. -/
def rowEmail (hdr row : List String) : String :=
  row.getD (hdr.indexOf "email") ""

/-- Whether the row's `email` column passes `_validate_email`. -/
def rowValid (hdr row : List String) : Bool :=
  (validate_email (rowEmail hdr row)).isSome

/-! ### Retry file handling (`PyMailer._parse_csv` resend mode, lines
177-181, and `PyMailer._retry_handler`, lines 75-88) -/

/-- Python file `write` at position `pos` of a file with contents `content`:
overwrite in place, extending the file as needed. -/
def pyWriteAt (content : String) (pos : Nat) (s : String) : String :=
  String.mk (content.data.take pos ++ s.data ++ content.data.drop (pos + s.data.length))

/-- What `_parse_csv` does to the retry file in resend mode: after `read()`
the file position is at the end, and the code executes `csv_file.write('')`
(comment: "clear the contents of the resend csv file"). -/
def retryFileAfterLoad (content : String) : String :=
  pyWriteAt content content.data.length ""

/-- Python `open(path, mode, encoding=...)`: `ValueError` when a binary mode
is combined with an `encoding` argument. -/
def pyOpenCheck (binaryMode : Bool) (encoding : Option String) : Except PyErr Unit :=
  if binaryMode && encoding.isSome then Except.error PyErr.valueError
  else Except.ok ()

/-- `_retry_handler`: opens the retry csv with mode `'wb+'` (binary,
truncating) *and* `encoding='utf-8'`, then writes the single row
`name,email`.  The result is the new contents of the retry file. -/
def retry_handler (recipient_data : Dict) : Except PyErr String :=
  match pyOpenCheck true (some "utf-8") with
  | Except.error e => Except.error e
  | Except.ok _ =>
    -- mode 'w'/'wb' truncates: only this row would remain in the file
    Except.ok ((dictGet recipient_data "name").getD "" ++ ","
      ++ (dictGet recipient_data "email").getD "" ++ "\r\n")

/-! ### Template Renderer (`PyMailer._html_parser`, pymailer.py lines 90-109)

The code raises on an empty template, then executes
`html_content = html_content.replace("<!--%s-->" % key, value)` for each
`(key, value)` of `recipient_data.items()`, in order.  `str.replace`
replaces the leftmost non-overlapping occurrences. -/

/-- The opening placeholder marker `<!--`. -/
def markerL : List Char := ['<', '!', '-', '-']

/-- The closing placeholder marker `-->`. -/
def markerR : List Char := ['-', '-', '>']

/-- The placeholder token `<!--key-->`. -/
def token (k : List Char) : List Char := markerL ++ k ++ markerR

/-- Python `str.replace`, fuel-indexed so that the recursion is structural;
the fuel is decremented once per step and every step consumes at least one
input character, so `l.length` fuel always suffices. -/
def repGo (t v : List Char) : Nat → List Char → List Char
  | _, [] => []
  | 0, l => l
  | n + 1, c :: cs =>
    if t.isPrefixOf (c :: cs) && !t.isEmpty then
      v ++ repGo t v n ((c :: cs).drop t.length)
    else c :: repGo t v n cs

/-- Python `l.replace(t, v)` for nonempty `t`: replace the leftmost
non-overlapping occurrences of `t` by `v`. -/
def replaceAll (t v l : List Char) : List Char :=
  repGo t v l.length l

/-- The `for key, value in recipient_data.items()` loop of `_html_parser`:
one `str.replace` per record item, in record order. -/
def renderItems (items : List (List Char × List Char)) (tpl : List Char) : List Char :=
  items.foldl (fun acc kv => replaceAll (token kv.1) kv.2 acc) tpl

/-- `_html_parser`: error on an empty template, then the substitution fold
(the record is passed as its item list). -/
def htmlRender (tpl : List Char) (items : List (List Char × List Char)) :
    Except PyErr (List Char) :=
  if tpl.isEmpty then Except.error PyErr.emptyHtmlError
  else Except.ok (renderItems items tpl)

/-! Specification side of C8: a template presented as literal segments and
placeholder tokens, and the claim's simultaneous reading of substitution. -/

/-- A template segment: literal text or a placeholder token for a key. -/
inductive Seg where
  | lit (s : List Char)
  | ph (k : List Char)

/-- The template text denoted by a segment list (all tokens verbatim). -/
def flattenSegs : List Seg → List Char
  | [] => []
  | Seg.lit s :: r => s ++ flattenSegs r
  | Seg.ph k :: r => token k ++ flattenSegs r

/-- First binding of key `k` among the record's items. -/
def lookupKey (items : List (List Char × List Char)) (k : List Char) :
    Option (List Char) :=
  (items.find? (fun p => p.1 == k)).map (fun p => p.2)

/-- The claim's reading of rendering: every placeholder whose key is bound
in the record is replaced by that key's value; every other character —
including tokens of unbound keys — is untouched. -/
def renderSegs (items : List (List Char × List Char)) : List Seg → List Char
  | [] => []
  | Seg.lit s :: r => s ++ renderSegs items r
  | Seg.ph k :: r => (lookupKey items k).getD (token k) ++ renderSegs items r

/-- Identifier characters allowed in placeholder keys (letters, digits,
underscore). -/
def isKeyChar (c : Char) : Bool := c.isAlphanum || c == '_'

/-- Value characters that can neither create nor extend a placeholder
marker. -/
def isSafeValChar (c : Char) : Bool := !(c == '<' || c == '!' || c == '-')

/-- Whether `pat` occurs as a contiguous sublist. -/
def containsSub (pat : List Char) : List Char → Bool
  | [] => pat.isEmpty
  | c :: cs => pat.isPrefixOf (c :: cs) || containsSub pat cs

/-- A literal segment free of the opening marker `<!--`. -/
def litOk (s : List Char) : Bool := !(containsSub markerL s)

/-- Whether the segment list does not begin with a literal segment. -/
def notLitHead : List Seg → Bool
  | Seg.lit _ :: _ => false
  | _ => true

/-- Well-formed segment lists: marker-free literal segments, no two adjacent
literal segments, identifier keys. -/
def segsOkB : List Seg → Bool
  | [] => true
  | Seg.lit s :: rest => litOk s && notLitHead rest && segsOkB rest
  | Seg.ph k :: rest => k.all isKeyChar && segsOkB rest

/-- Character lists whose first character, if any, is `<` or a safe value
character (what a rendered segment list can start with). -/
def headSafe (X : List Char) : Prop :=
  ∀ c, X.head? = some c → c = '<' ∨ isSafeValChar c = true

/-! ### Campaign Runner (`PyMailer.send`, pymailer.py lines 186-253, with
`config.py`)

`send` checks `config.ENCRYPT_MODE`, writes the initial stats entries, then
for each recipient derives the display fields (reading
`config.REPLYTO_EMAIL`, an attribute the shipped `config.py` does not
define, so the read raises `AttributeError`), forms the message, and
attempts delivery `nb_emails_per_recipient` times.  A successful attempt
sends, closes the session, records the last recipient, and calls
`sleep(config.SEND_DELAY)` — `SEND_DELAY` is also absent from the shipped
`config.py`.  A failed attempt enters the `except smtplib.SMTPException`
handler, which prints and then evaluates the undefined name `recipient`
(line 248), raising `NameError`, which is not caught: the run aborts.  The
SMTP transport is an oracle giving each attempt's outcome; observable
actions are recorded as an event trace. -/

/-- Observable events of a campaign run. -/
inductive Ev where
  | sessOpen
  | ehlo
  | tlsUpgrade
  | login
  | sendOk
  | sendFail
  | sessClose
  | statsWrite (key : String)
  | sleepDelay
  | retryWrite
  deriving DecidableEq

/-- The campaign configuration (`config.py`).  `Option` fields model module
attributes that may be missing: `none` means the attribute is absent from
`config.py` and reading it raises `AttributeError`. -/
structure Config where
  encrypt_mode : String
  smtp_user : String
  smtp_password : String
  from_name : String
  from_email : String
  nb_emails_per_recipient : Nat
  replyto_name : Option String
  replyto_email : Option String
  send_delay : Option Nat

/-- The shipped `config.py`: `ENCRYPT_MODE = 'none'`, empty credentials, one
email per recipient, and *no* `REPLYTO_NAME`, `REPLYTO_EMAIL` or
`SEND_DELAY` attributes. -/
def srcConfig : Config :=
  { encrypt_mode := "none", smtp_user := "", smtp_password := "",
    from_name := "Company Name", from_email := "company@example.com",
    nb_emails_per_recipient := 1,
    replyto_name := none, replyto_email := none, send_delay := none }

/-- The shipped config with the missing attributes filled in (isolates the
send-loop behaviour from the missing-attribute crashes). -/
def fullConfig : Config :=
  { srcConfig with
    replyto_name := some "Reply", replyto_email := some "reply@example.com",
    send_delay := some 1 }

/-- The shipped config with reply-to filled in but `SEND_DELAY` still
missing (as shipped), and two sends per recipient. -/
def noDelayConfig : Config :=
  { fullConfig with send_delay := none, nb_emails_per_recipient := 2 }

/-- The shipped config with reply-to *configured empty* (the closest the
configuration surface comes to "no reply-to" without a missing attribute). -/
def emptyReplyConfig : Config :=
  { srcConfig with replyto_name := some "", replyto_email := some "" }

/-- Lines 207-214 of `send`: derive `recipient` and `sender`, and add
`reply-to` only when `config.REPLYTO_EMAIL` is truthy.  With the shipped
config the attribute read itself raises `AttributeError`. -/
def prepRecipient (cfg : Config) (r : Dict) : Except PyErr Dict :=
  let disp :=
    match dictGet r "name" with
    | some n =>
      if n ≠ "" then n ++ " <" ++ (dictGet r "email").getD "" ++ ">"
      else (dictGet r "email").getD ""
    | none => (dictGet r "email").getD ""
  let d1 := dictSet r "recipient" disp
  let d2 := dictSet d1 "sender" (cfg.from_name ++ " <" ++ cfg.from_email ++ ">")
  match cfg.replyto_email with
  | none => Except.error PyErr.attributeError
  | some rte =>
    if rte ≠ "" then
      match cfg.replyto_name with
      | none => Except.error PyErr.attributeError
      | some rtn => Except.ok (dictSet d2 "reply-to" (rtn ++ " <" ++ rte ++ ">"))
    else Except.ok d2

/-- An email message: headers and rendered body. -/
structure EmailMsg where
  headers : List (String × String)
  body : List Char

/-- `_form_email` (lines 111-126): render the template, then evaluate
`recipient_data['reply-to']` with python's strict subscript — `KeyError`
when the key was never added — and assemble the headers (`Reply-To` only
for a truthy value). -/
def form_email (tpl : List Char) (subject : String) (d : Dict) :
    Except PyErr EmailMsg :=
  match htmlRender tpl (d.map (fun p => (p.1.data, p.2.data))) with
  | Except.error e => Except.error e
  | Except.ok body =>
    match dictGet d "reply-to" with
    | none => Except.error PyErr.keyError
    | some rto =>
      Except.ok
        { headers := [("From", (dictGet d "sender").getD "")]
            ++ (if rto ≠ "" then [("Reply-To", rto)] else [])
            ++ [("To", (dictGet d "recipient").getD ""), ("Subject", subject)],
          body := body }

/-- The events of establishing one SMTP session: connect, then the
encryption negotiation for the configured mode, then login when both
credentials are nonempty. -/
def attemptPre (cfg : Config) : List Ev :=
  [Ev.sessOpen]
    ++ (if cfg.encrypt_mode ≠ "none" then
          [Ev.ehlo]
            ++ (if cfg.encrypt_mode = "starttls" then [Ev.tlsUpgrade, Ev.ehlo] else [])
        else [])
    ++ (if cfg.smtp_user ≠ "" ∧ cfg.smtp_password ≠ "" then [Ev.login] else [])

/-- One delivery attempt (the body of the `for nb in range(...)` loop):
the events it emits, and the exception escaping it, if any.  On success the
session is closed, the stats entry written, and `sleep(config.SEND_DELAY)`
runs — `AttributeError` when `SEND_DELAY` is missing.  On failure the
handler prints and then hits the undefined name `recipient`: `NameError`,
with neither a session close nor a retry write. -/
def attempt (cfg : Config) (outcome : Bool) : List Ev × Option PyErr :=
  if outcome then
    match cfg.send_delay with
    | some _ =>
      (attemptPre cfg
        ++ [Ev.sendOk, Ev.sessClose, Ev.statsWrite "LAST RECIPIENT", Ev.sleepDelay],
        none)
    | none =>
      (attemptPre cfg ++ [Ev.sendOk, Ev.sessClose, Ev.statsWrite "LAST RECIPIENT"],
        some PyErr.attributeError)
  else
    (attemptPre cfg ++ [Ev.sendFail], some PyErr.nameError)

/-- The inner attempts loop: `n` attempts with outcomes `oracle i`,
`oracle (i+1)`, ...; aborts at the first escaping exception. -/
def attemptsLoop (cfg : Config) (oracle : Nat → Bool) : Nat → Nat → List Ev × Option PyErr
  | 0, _ => ([], none)
  | n + 1, i =>
    let a := attempt cfg (oracle i)
    match a.2 with
    | some e => (a.1, some e)
    | none =>
      let rest := attemptsLoop cfg oracle n (i + 1)
      (a.1 ++ rest.1, rest.2)

/-- The outer recipient loop of `send`. -/
def recipLoop (cfg : Config) (oracle : Nat → Bool) (tpl : List Char)
    (subject : String) : List Dict → Nat → List Ev × Option PyErr
  | [], _ => ([], none)
  | r :: rest, i =>
    match prepRecipient cfg r with
    | Except.error e => ([], some e)
    | Except.ok d =>
      match form_email tpl subject d with
      | Except.error e => ([], some e)
      | Except.ok _ =>
        let a := attemptsLoop cfg oracle cfg.nb_emails_per_recipient i
        match a.2 with
        | some e => (a.1, some e)
        | none =>
          let rest' :=
            recipLoop cfg oracle tpl subject rest (i + cfg.nb_emails_per_recipient)
          (a.1 ++ rest'.1, rest'.2)

/-- `send` on an explicit recipient list (initial pass): encryption-mode
check, the two initial stats entries, then the recipient loop. -/
def sendRun (cfg : Config) (oracle : Nat → Bool) (tpl : List Char)
    (subject : String) (recipients : List Dict) : List Ev × Option PyErr :=
  if cfg.encrypt_mode = "none" ∨ cfg.encrypt_mode = "ssl"
      ∨ cfg.encrypt_mode = "starttls" then
    let r := recipLoop cfg oracle tpl subject recipients 0
    ([Ev.statsWrite "TOTAL RECIPIENTS", Ev.statsWrite "START TIME"] ++ r.1, r.2)
  else ([], some PyErr.encryptModeError)

/-- Session-discipline scan: the state is whether a session is currently
open; an open while open, or a close while closed, is a violation
(`none`). -/
def sessFold : Option Bool → List Ev → Option Bool
  | none, _ => none
  | some b, [] => some b
  | some b, e :: rest =>
    match e with
    | Ev.sessOpen => if b then none else sessFold (some true) rest
    | Ev.sessClose => if b then sessFold (some false) rest else none
    | _ => sessFold (some b) rest

/-- A sample recipient record. -/
def annRec : Dict := [("name", "Ann"), ("email", "ann@x.com")]



theorem statsLoop_fst (m : String) (l : List String) :
    (statsLoop m l).1 = l.map (fun e => if statsMatches m e then m else e) := by
  induction l with
  | nil => rfl
  | cons e rest ih =>
    simp only [statsLoop, List.map]
    cases hb : statsMatches m e <;> simp [hb, ih]

theorem statsLoop_snd (m : String) (l : List String) :
    (statsLoop m l).2 = l.any (statsMatches m) := by
  induction l with
  | nil => rfl
  | cons e rest ih =>
    simp only [statsLoop, List.any_cons]
    cases hb : statsMatches m e <;> simp [hb, ih]

theorem statsUpdate_of_match (entries : List String) (m : String)
    (h : (statsLoop m entries).2 = true) :
    statsUpdate entries m = entries.map (fun e => if statsMatches m e then m else e) := by
  simp only [statsUpdate, h, if_true, statsLoop_fst]

theorem statsUpdate_of_no_match (entries : List String) (m : String)
    (h : (statsLoop m entries).2 = false) :
    statsUpdate entries m = entries ++ [m] := by
  have hall : ∀ e ∈ entries, statsMatches m e = false := by
    rw [statsLoop_snd] at h
    simpa using h
  have hmap : entries.map (fun e => if statsMatches m e then m else e) = entries := by
    have := List.map_congr_left (l := entries)
      (f := fun e => if statsMatches m e then m else e) (g := id) ?_
    · simpa using this
    · intro a ha
      simp [hall a ha]
  simp only [statsUpdate, h, if_false, statsLoop_fst, Bool.false_eq_true, hmap]

theorem statsMatches_iff (m e : String) :
    statsMatches m e = true ↔ e ≠ "" ∧ pyTake m 5 = pyTake e 5 := by
  simp [statsMatches]

theorem noDupKeys_statsUpdate (entries : List String) (m : String)
    (h : NoDupKeys entries) : NoDupKeys (statsUpdate entries m) := by
  cases hflag : (statsLoop m entries).2 with
  | true =>
    rw [statsUpdate_of_match entries m hflag]
    refine List.pairwise_map.mpr (h.imp ?_)
    intro a b hab
    cases hma : statsMatches m a with
    | true =>
      cases hmb : statsMatches m b with
      | true =>
        -- both entries already share the key with `m`: contradicts `keyDistinct a b`
        rcases (statsMatches_iff m a).mp hma with ⟨ha0, hka⟩
        rcases (statsMatches_iff m b).mp hmb with ⟨hb0, hkb⟩
        rcases hab with h1 | h1 | h1
        · exact absurd h1 ha0
        · exact absurd h1 hb0
        · exact absurd (hka.symm.trans hkb) h1
      | false =>
        show keyDistinct m b
        by_cases hb0 : b = ""
        · exact Or.inr (Or.inl hb0)
        · exact Or.inr (Or.inr (fun hk =>
            (Bool.eq_false_iff.mp hmb) ((statsMatches_iff m b).mpr ⟨hb0, hk⟩)))
    | false =>
      cases hmb : statsMatches m b with
      | true =>
        show keyDistinct a m
        by_cases ha0 : a = ""
        · exact Or.inl ha0
        · exact Or.inr (Or.inr (fun hk =>
            (Bool.eq_false_iff.mp hma) ((statsMatches_iff m a).mpr ⟨ha0, hk.symm⟩)))
      | false =>
        exact hab
  | false =>
    rw [statsUpdate_of_no_match entries m hflag]
    refine List.pairwise_append.mpr ⟨h, List.pairwise_singleton _ _, ?_⟩
    intro a ha b hb
    have hma : statsMatches m a = false := by
      rw [statsLoop_snd] at hflag
      exact Bool.eq_false_iff.mpr ((List.any_eq_false.mp hflag) a ha)
    have hb0 : b = m := List.mem_singleton.mp hb
    rw [hb0]
    by_cases hae : a = ""
    · exact Or.inl hae
    · exact Or.inr (Or.inr (fun hk =>
        (Bool.eq_false_iff.mp hma) ((statsMatches_iff m a).mpr ⟨hae, hk.symm⟩)))

theorem splitCh_ne_nil (sep : Char) (l : List Char) : splitCh sep l ≠ [] := by
  cases l with
  | nil => simp [splitCh]
  | cons c cs =>
    simp only [splitCh]
    cases hsp : splitCh sep cs with
    | nil => simp
    | cons h t =>
      by_cases hc : c = sep <;> simp [hc]

theorem joinSep_nil_chunk (sep : Char) (h : List Char) (t : List (List Char)) :
    joinSep sep ([] :: h :: t) = sep :: joinSep sep (h :: t) := by
  simp [joinSep, List.intersperse_cons_cons]

theorem joinSep_cons_head (sep c : Char) (h : List Char) (t : List (List Char)) :
    joinSep sep ((c :: h) :: t) = c :: joinSep sep (h :: t) := by
  cases t with
  | nil => simp [joinSep]
  | cons x xs => simp [joinSep, List.intersperse_cons_cons]

theorem splitCh_cons_sep (sep : Char) (cs h : List Char) (t : List (List Char))
    (hsp : splitCh sep cs = h :: t) :
    splitCh sep (sep :: cs) = [] :: h :: t := by
  simp [splitCh, hsp]

theorem splitCh_cons_ne (sep c : Char) (cs h : List Char) (t : List (List Char))
    (hc : ¬ c = sep) (hsp : splitCh sep cs = h :: t) :
    splitCh sep (c :: cs) = (c :: h) :: t := by
  simp [splitCh, hsp, hc]

theorem joinSep_splitCh (sep : Char) (l : List Char) :
    joinSep sep (splitCh sep l) = l := by
  induction l with
  | nil => rfl
  | cons c cs ih =>
    cases hsp : splitCh sep cs with
    | nil => exact absurd hsp (splitCh_ne_nil sep cs)
    | cons h t =>
      have hjoin : joinSep sep (h :: t) = cs := by rw [← hsp]; exact ih
      by_cases hc : c = sep
      · subst hc
        rw [splitCh_cons_sep c cs h t hsp, joinSep_nil_chunk, hjoin]
      · rw [splitCh_cons_ne sep c cs h t hc hsp, joinSep_cons_head, hjoin]

theorem splitCh_no_sep (sep : Char) (l : List Char) (h : sep ∉ l) :
    splitCh sep l = [l] := by
  induction l with
  | nil => rfl
  | cons c cs ih =>
    have hcs : sep ∉ cs := fun hx => h (List.mem_cons_of_mem c hx)
    have hc : ¬ c = sep := fun hx => h (hx ▸ List.mem_cons_self c cs)
    simp only [splitCh, ih hcs, if_neg hc]

theorem splitCh_append_sep (sep : Char) (a X : List Char) (h : sep ∉ a) :
    splitCh sep (a ++ sep :: X) = a :: splitCh sep X := by
  induction a with
  | nil =>
    cases hsp : splitCh sep X with
    | nil => exact absurd hsp (splitCh_ne_nil sep X)
    | cons hh tt =>
      rw [List.nil_append, splitCh_cons_sep sep X hh tt hsp]

  | cons c cs ih =>
    have hcs : sep ∉ cs := fun hx => h (List.mem_cons_of_mem c hx)
    have hc : ¬ c = sep := fun hx => h (hx ▸ List.mem_cons_self c cs)
    have hin := ih hcs
    cases hsp : splitCh sep (cs ++ sep :: X) with
    | nil => exact absurd hsp (splitCh_ne_nil sep _)
    | cons hh tt =>
      rw [hsp] at hin
      injection hin with h1 h2
      rw [List.cons_append, splitCh_cons_ne sep c _ hh tt hc hsp, h1, h2]

theorem joinSep_cons_cons (sep : Char) (a b : List Char) (t : List (List Char)) :
    joinSep sep (a :: b :: t) = a ++ sep :: joinSep sep (b :: t) := by
  simp [joinSep, List.intersperse_cons_cons]

theorem joinSep_singleton (sep : Char) (a : List Char) :
    joinSep sep [a] = a := by
  simp [joinSep]

theorem mem_joinSep (sep : Char) (chunks : List (List Char)) (x : Char)
    (hx : x ∈ joinSep sep chunks) : x = sep ∨ ∃ c ∈ chunks, x ∈ c := by
  induction chunks with
  | nil => simp [joinSep] at hx
  | cons a rest ih =>
    cases rest with
    | nil =>
      rw [joinSep_singleton] at hx
      exact Or.inr ⟨a, List.mem_cons_self a [], hx⟩
    | cons b t =>
      rw [joinSep_cons_cons] at hx
      rcases List.mem_append.mp hx with hx | hx
      · exact Or.inr ⟨a, List.mem_cons_self _ _, hx⟩
      · rcases List.mem_cons.mp hx with hx | hx
        · exact Or.inl hx
        · rcases ih hx with h1 | ⟨c, hc, hxc⟩
          · exact Or.inl h1
          · exact Or.inr ⟨c, List.mem_cons_of_mem _ hc, hxc⟩

theorem bandE {a b : Bool} (h : (a && b) = true) : a = true ∧ b = true := by
  simp only [Bool.and_eq_true] at h
  exact h

theorem bandI {a b : Bool} (h1 : a = true) (h2 : b = true) : (a && b) = true := by
  simp [h1, h2]

theorem splitCh_chunks_no_sep (sep : Char) (l : List Char) :
    ∀ c ∈ splitCh sep l, sep ∉ c := by
  induction l with
  | nil =>
    intro c hc
    simp only [splitCh, List.mem_singleton] at hc
    subst hc
    exact List.not_mem_nil sep
  | cons x xs ih =>
    intro c hc
    cases hsp : splitCh sep xs with
    | nil => exact absurd hsp (splitCh_ne_nil sep xs)
    | cons h t =>
      rw [hsp] at ih
      by_cases hx : x = sep
      · subst hx
        rw [splitCh_cons_sep x xs h t hsp] at hc
        rcases List.mem_cons.mp hc with hc | hc
        · subst hc; exact List.not_mem_nil x
        · exact ih c hc
      · rw [splitCh_cons_ne sep x xs h t hx hsp] at hc
        rcases List.mem_cons.mp hc with hc | hc
        · subst hc
          intro hmem
          rcases List.mem_cons.mp hmem with hh | hh
          · exact hx hh.symm
          · exact ih h (List.mem_cons_self h t) hh
        · exact ih c (List.mem_cons_of_mem h hc)

theorem splitCh_joinSep (sep : Char) (chunks : List (List Char))
    (hne : chunks ≠ []) (hsep : ∀ c ∈ chunks, sep ∉ c) :
    splitCh sep (joinSep sep chunks) = chunks := by
  induction chunks with
  | nil => exact absurd rfl hne
  | cons a rest ih =>
    cases rest with
    | nil =>
      rw [joinSep_singleton]
      exact splitCh_no_sep sep a (hsep a (List.mem_cons_self a []))
    | cons b t =>
      rw [joinSep_cons_cons]
      rw [splitCh_append_sep sep a _ (hsep a (List.mem_cons_self a _))]
      rw [ih (List.cons_ne_nil b t) (fun c hc => hsep c (List.mem_cons_of_mem a hc))]

theorem localOk_iff (l : List Char) : localOk l = true ↔ SpecLocal l := by
  constructor
  · intro h
    exact ⟨splitCh '.' l, splitCh_ne_nil _ _,
      fun c hc => List.all_eq_true.mp h c hc, (joinSep_splitCh '.' l).symm⟩
  · rintro ⟨chunks, hne, hok, rfl⟩
    have hsep : ∀ c ∈ chunks, '.' ∉ c := by
      intro c hc hdot
      have hall := (bandE (hok c hc)).2
      exact absurd (List.all_eq_true.mp hall '.' hdot) (by decide)
    rw [localOk, splitCh_joinSep '.' chunks hne hsep]
    exact List.all_eq_true.mpr hok

theorem labelOk_all (lab : List Char) (h : labelOk lab = true) :
    lab.all isLabelChar = true := by
  simp only [labelOk, Bool.and_eq_true] at h
  exact h.1.1.2

theorem labelOk_nonempty (lab : List Char) (h : labelOk lab = true) :
    1 ≤ lab.length := by
  simp only [labelOk, Bool.and_eq_true] at h
  have := h.1.1.1
  cases lab with
  | nil => simp at this
  | cons c cs => simp

theorem getLastD_mem {α : Type} (l : List α) (d : α) (h : l ≠ []) :
    l.getLastD d ∈ l := by
  induction l with
  | nil => exact absurd rfl h
  | cons a rest ih =>
    cases rest with
    | nil => simp
    | cons b t =>
      have : (a :: b :: t).getLastD d = (b :: t).getLastD d := by
        simp [List.getLastD]
      rw [this]
      exact List.mem_cons_of_mem a (ih (List.cons_ne_nil b t))

theorem domainOk_iff (m : Nat) (d : List Char) :
    (domainOk d = true ∧ m ≤ ((splitCh '.' d).getLastD []).length)
      ↔ SpecDomain m d := by
  constructor
  · rintro ⟨h, hm⟩
    obtain ⟨h2, hall⟩ := bandE h
    exact ⟨splitCh '.' d, of_decide_eq_true h2,
      fun lab hl => List.all_eq_true.mp hall lab hl, hm, (joinSep_splitCh _ _).symm⟩
  · rintro ⟨labs, h2, hok, hm, rfl⟩
    have hne : labs ≠ [] := by
      intro h
      rw [h] at h2
      simp at h2
    have hsep : ∀ c ∈ labs, '.' ∉ c := by
      intro c hc hdot
      have hall := labelOk_all c (hok c hc)
      exact absurd (List.all_eq_true.mp hall '.' hdot) (by decide)
    rw [domainOk, splitCh_joinSep '.' labs hne hsep]
    exact ⟨bandI (decide_eq_true h2) (List.all_eq_true.mpr hok), hm⟩

theorem localOk_no_at (l : List Char) (h : localOk l = true) : '@' ∉ l := by
  intro hmem
  rw [← joinSep_splitCh '.' l] at hmem
  rcases mem_joinSep '.' (splitCh '.' l) '@' hmem with h1 | ⟨c, hc, hxc⟩
  · exact absurd h1 (by decide)
  · have hall := (bandE (List.all_eq_true.mp h c hc)).2
    exact absurd (List.all_eq_true.mp hall '@' hxc) (by decide)

theorem domainOk_no_at (d : List Char) (h : domainOk d = true) : '@' ∉ d := by
  intro hmem
  rw [← joinSep_splitCh '.' d] at hmem
  rcases mem_joinSep '.' (splitCh '.' d) '@' hmem with h1 | ⟨c, hc, hxc⟩
  · exact absurd h1 (by decide)
  · have hall := labelOk_all c
      (List.all_eq_true.mp (bandE h).2 c hc)
    exact absurd (List.all_eq_true.mp hall '@' hxc) (by decide)

theorem specPatternB_iff (m : Nat) (s : List Char) :
    specPatternB m s = true ↔ SpecPattern m s := by
  constructor
  · intro h
    unfold specPatternB at h
    cases hsp : splitCh '@' s with
    | nil => rw [hsp] at h; exact absurd h (by simp)
    | cons l rest =>
      cases rest with
      | nil => rw [hsp] at h; exact absurd h (by simp)
      | cons d rest2 =>
        cases rest2 with
        | cons y ys => rw [hsp] at h; exact absurd h (by simp)
        | nil =>
          rw [hsp] at h
          simp only [Bool.and_eq_true] at h
          obtain ⟨⟨hl, hd⟩, hlen⟩ := h
          have hs : s = l ++ '@' :: d := by
            have := joinSep_splitCh '@' s
            rw [hsp, joinSep_cons_cons, joinSep_singleton] at this
            exact this.symm
          exact ⟨l, d, hs, (localOk_iff l).mp hl,
            (domainOk_iff m d).mp ⟨hd, of_decide_eq_true hlen⟩⟩
  · rintro ⟨l, d, rfl, hl, hd⟩
    have hlb := (localOk_iff l).mpr hl
    have hdb := (domainOk_iff m d).mpr hd
    have hlat : '@' ∉ l := localOk_no_at l hlb
    have hdat : '@' ∉ d := domainOk_no_at d hdb.1
    have hsp : splitCh '@' (l ++ '@' :: d) = [l, d] := by
      rw [splitCh_append_sep '@' l d hlat, splitCh_no_sep '@' d hdat]
    unfold specPatternB
    rw [hsp]
    exact bandI (bandI hlb hdb.1) (decide_eq_true hdb.2)

theorem domainOk_last_nonempty (d : List Char) (h : domainOk d = true) :
    1 ≤ ((splitCh '.' d).getLastD []).length := by
  obtain ⟨h2, hall⟩ := bandE h
  have hne : splitCh '.' d ≠ [] := splitCh_ne_nil '.' d
  have hmem := getLastD_mem (splitCh '.' d) [] hne
  exact labelOk_nonempty _ (List.all_eq_true.mp hall _ hmem)

theorem patternOk_eq_b1 (s : List Char) : patternOk s = specPatternB 1 s := by
  unfold patternOk specPatternB
  cases hsp : splitCh '@' s with
  | nil => rfl
  | cons l rest =>
    cases rest with
    | nil => rfl
    | cons d rest2 =>
      cases rest2 with
      | cons y ys => rfl
      | nil =>
        show (localOk l && domainOk d)
          = (localOk l && domainOk d
              && decide (1 ≤ ((splitCh '.' d).getLastD []).length))
        cases hl : localOk l with
        | false => rfl
        | true =>
          cases hd : domainOk d with
          | false => rfl
          | true =>
            rw [decide_eq_true (domainOk_last_nonempty d hd)]
            rfl

theorem pyRegexMatch_iff (s : List Char) :
    pyRegexMatch s = true
      ↔ (SpecPattern 1 s ∨ (s.getLastD ' ' = '\n' ∧ SpecPattern 1 s.dropLast)) := by
  unfold pyRegexMatch
  rw [Bool.or_eq_true, Bool.and_eq_true, patternOk_eq_b1, patternOk_eq_b1,
    specPatternB_iff, specPatternB_iff, beq_iff_eq]

/-- Claim C6 counterexample: the validator does not accept exactly the
claimed set.  `"a@b.c"` is accepted although its final domain label `c` has
fewer than 2 characters, and `"a@bb.cc\n"` is accepted although it contains a
character (the newline) outside printable ASCII. -/
theorem C6_validator_counterexample :
    (¬ ∀ s : String, (validate_email s).isSome = true ↔ ClaimC6Accepts s)
    ∧ (validate_email "a@b.c").isSome = true
    ∧ (validate_email "a@bb.cc\n").isSome = true
    ∧ ¬ printableAscii "a@bb.cc\n" := by
  refine ⟨?_, by decide, by decide, by unfold printableAscii; decide⟩
  intro h
  have h1 : (validate_email "a@b.c").isSome = true := by decide
  have h2 := (h "a@b.c").mp h1
  unfold ClaimC6Accepts at h2
  rcases h2 with ⟨-, -, hp⟩
  have hb : specPatternB 2 "a@b.c".data = true := (specPatternB_iff 2 _).mpr hp
  exact absurd hb (by decide)

/-- Claim C6 (amended): the validator accepts exactly the ASCII strings of
length at least 5 that match the documented `local@domain` pattern where the
final domain label may have 1 or more characters (not 2), possibly followed
by a single trailing newline (so acceptance does not imply printability). -/
theorem C6_validator_accepts_iff_amended (s : String) :
    (validate_email s).isSome = true ↔ AmendedC6Accepts s := by
  unfold validate_email AmendedC6Accepts
  split_ifs with h1 h2 h3
  · simp only [Option.isSome_none, Bool.false_eq_true, false_iff]
    rintro ⟨hlen, -⟩
    omega
  · simp only [Option.isSome_none, Bool.false_eq_true, false_iff]
    rintro ⟨-, -, hp⟩
    have hp' : pyRegexMatch s.data = true := (pyRegexMatch_iff s.data).mpr hp
    rw [hp'] at h2
    simp at h2
  · simp only [Option.isSome_none, Bool.false_eq_true, false_iff]
    rintro ⟨-, hascii, -⟩
    have hall : s.data.all (fun c => decide (c.toNat ≤ 127)) = true :=
      List.all_eq_true.mpr (fun c hc => decide_eq_true (hascii c hc))
    rw [hall] at h3
    simp at h3
  · simp only [Option.isSome_some, true_iff]
    refine ⟨by omega, ?_, ?_⟩
    · intro c hc
      have hall : s.data.all (fun c => decide (c.toNat ≤ 127)) = true := by
        cases hx : s.data.all (fun c => decide (c.toNat ≤ 127)) with
        | true => rfl
        | false => rw [hx] at h3; simp at h3
      exact of_decide_eq_true (List.all_eq_true.mp hall c hc)
    · have hm : pyRegexMatch s.data = true := by
        cases hx : pyRegexMatch s.data with
        | true => rfl
        | false => rw [hx] at h2; simp at h2
      exact (pyRegexMatch_iff s.data).mp hm

/-- Claim C4: a `_stats` write whose five-character key prefix matches an
existing nonempty line replaces every such line in place (all other lines kept
in order); otherwise the message is appended; this preserves the invariant
that no two entries share a key, and writing `START TIME: t1` then
`START TIME: t2` leaves exactly the single line `START TIME: t2`. -/
theorem C4_stats_replace_in_place_or_append :
    (∀ entries m, (statsLoop m entries).2 = true →
        statsUpdate entries m = entries.map (fun e => if statsMatches m e then m else e))
    ∧ (∀ entries m, (statsLoop m entries).2 = false →
        statsUpdate entries m = entries ++ [m])
    ∧ (∀ entries m, NoDupKeys entries → NoDupKeys (statsUpdate entries m))
    ∧ statsFileUpdate (statsFileUpdate "" "START TIME: t1") "START TIME: t2"
        = "START TIME: t2\n" :=
  ⟨statsUpdate_of_match, statsUpdate_of_no_match, noDupKeys_statsUpdate, by decide⟩

/-- Witness for C4 at concrete inputs: a matching write replaces in place, a
fresh key is appended, and key-uniqueness carries over. -/
theorem C4_stats_replace_in_place_or_append_witness :
    statsUpdate ["START TIME: t1"] "START TIME: t2"
        = ["START TIME: t1"].map
            (fun e => if statsMatches "START TIME: t2" e then "START TIME: t2" else e)
    ∧ statsUpdate ["START TIME: t1"] "END TIME: t3" = ["START TIME: t1", "END TIME: t3"]
    ∧ NoDupKeys (statsUpdate ["START TIME: t1"] "END TIME: t3") :=
  ⟨C4_stats_replace_in_place_or_append.1 _ _ (by decide),
   C4_stats_replace_in_place_or_append.2.1 _ _ (by decide),
   C4_stats_replace_in_place_or_append.2.2.1 _ _ (by decide)⟩

theorem foldl_colStep_count (pairs : List (String × String))
    (acc : Dict × Nat × List String) :
    (pairs.foldl colStep acc).2.1
      = acc.2.1
        + (pairs.filter (fun p => p.1 == "email" && (validate_email p.2).isSome)).length := by
  induction pairs generalizing acc with
  | nil => simp
  | cons p rest ih =>
    rw [List.foldl_cons, ih (colStep acc p)]
    cases h1 : (p.1 == "email") with
    | false => simp [colStep, h1, List.filter_cons]
    | true =>
      cases h2 : (validate_email p.2).isSome with
      | false => simp [colStep, h1, h2, List.filter_cons]
      | true =>
        simp [colStep, h1, h2, List.filter_cons]
        omega

theorem foldl_colStep_bad (pairs : List (String × String))
    (acc : Dict × Nat × List String) :
    (pairs.foldl colStep acc).2.2
      = acc.2.2
        ++ (pairs.filter (fun p => p.1 == "email" && !(validate_email p.2).isSome)).map
            (fun p => p.2) := by
  induction pairs generalizing acc with
  | nil => simp
  | cons p rest ih =>
    rw [List.foldl_cons, ih (colStep acc p)]
    cases h1 : (p.1 == "email") with
    | false => simp [colStep, h1, List.filter_cons]
    | true =>
      cases h2 : validate_email p.2 with
      | none => simp [colStep, h1, h2, List.filter_cons]
      | some v => simp [colStep, h1, h2, List.filter_cons]

theorem zip_no_email_filter (hdr : List String) (row : List String)
    (h : "email" ∉ hdr) :
    (hdr.zip row).filter (fun p => p.1 == "email") = [] := by
  induction hdr generalizing row with
  | nil => simp
  | cons a t ih =>
    cases row with
    | nil => simp
    | cons r rs =>
      have ha : ¬ (a == "email") = true := by
        simp only [beq_iff_eq]
        exact fun hx => h (hx ▸ List.mem_cons_self a t)
      rw [List.zip_cons_cons, List.filter_cons]
      simp only [ha, if_false, Bool.false_eq_true]
      exact ih rs (fun hx => h (List.mem_cons_of_mem a hx))

theorem zip_email_filter (hdr : List String) (row : List String)
    (hcount : hdr.count "email" = 1) (hlen : hdr.length ≤ row.length) :
    (hdr.zip row).filter (fun p => p.1 == "email")
      = [("email", row.getD (hdr.indexOf "email") "")] := by
  induction hdr generalizing row with
  | nil => simp at hcount
  | cons a t ih =>
    cases row with
    | nil => simp at hlen
    | cons r rs =>
      by_cases ha : a = "email"
      · subst ha
        have ht : "email" ∉ t := by
          have h0 : t.count "email" = 0 := by
            rw [List.count_cons] at hcount
            simp at hcount
            omega
          exact List.count_eq_zero.mp h0
        rw [List.zip_cons_cons, List.filter_cons]
        simp only [beq_self_eq_true, if_true]
        rw [zip_no_email_filter t rs ht]
        simp [List.indexOf_cons_self]
      · have ha' : ¬ (a == "email") = true := by simpa using ha
        have hcount' : t.count "email" = 1 := by
          rw [List.count_cons] at hcount
          simp [ha] at hcount
          omega
        have hlen' : t.length ≤ rs.length := by
          simp only [List.length_cons] at hlen
          omega
        rw [List.zip_cons_cons, List.filter_cons]
        simp only [ha', if_false, Bool.false_eq_true]
        rw [ih rs hcount' hlen']
        have hidx : (a :: t).indexOf "email" = t.indexOf "email" + 1 :=
          List.indexOf_cons_ne t ha
        rw [hidx, List.getD_cons_succ]

theorem processRow_single_email (hdr row : List String)
    (hcount : hdr.count "email" = 1) (hlen : hdr.length ≤ row.length) :
    processRow hdr row
      = Except.ok ((processPairs (hdr.zip row)).1,
          (if rowValid hdr row then 1 else 0),
          (if rowValid hdr row then [] else [rowEmail hdr row])) := by
  unfold processRow
  rw [if_neg (by omega)]
  have hz := zip_email_filter hdr row hcount hlen
  have e1 : (processPairs (hdr.zip row)).2.1 = (if rowValid hdr row then 1 else 0) := by
    rw [processPairs, foldl_colStep_count]
    have hcomm : (hdr.zip row).filter (fun p => p.1 == "email" && (validate_email p.2).isSome)
        = (hdr.zip row).filter (fun p => (validate_email p.2).isSome && p.1 == "email") := by
      apply List.filter_congr
      intro a _
      exact Bool.and_comm _ _
    rw [hcomm, ← List.filter_filter, hz]
    cases hv : rowValid hdr row with
    | true =>
      have hvs : (validate_email (row.getD (hdr.indexOf "email") "")).isSome = true := hv
      simp only [List.filter_singleton]
      rw [hvs]
      simp
    | false =>
      have hvs : (validate_email (row.getD (hdr.indexOf "email") "")).isSome = false := hv
      simp only [List.filter_singleton]
      rw [hvs]
      simp
  have e2 : (processPairs (hdr.zip row)).2.2
      = (if rowValid hdr row then [] else [rowEmail hdr row]) := by
    rw [processPairs, foldl_colStep_bad]
    have hcomm : (hdr.zip row).filter (fun p => p.1 == "email" && !(validate_email p.2).isSome)
        = (hdr.zip row).filter (fun p => !(validate_email p.2).isSome && p.1 == "email") := by
      apply List.filter_congr
      intro a _
      exact Bool.and_comm _ _
    rw [hcomm, ← List.filter_filter, hz]
    cases hv : rowValid hdr row with
    | true =>
      have hvs : (validate_email (row.getD (hdr.indexOf "email") "")).isSome = true := hv
      simp only [List.filter_singleton]
      rw [hvs]
      simp
    | false =>
      have hvs : (validate_email (row.getD (hdr.indexOf "email") "")).isSome = false := hv
      simp only [List.filter_singleton]
      rw [hvs]
      simp [rowEmail]
  have heta : processPairs (hdr.zip row)
      = ((processPairs (hdr.zip row)).1, (processPairs (hdr.zip row)).2.1,
          (processPairs (hdr.zip row)).2.2) := rfl
  rw [heta, e1, e2]

theorem filter_length_split {α : Type} (p : α → Bool) (l : List α) :
    (l.filter p).length + (l.filter (fun a => !(p a))).length = l.length := by
  induction l with
  | nil => simp
  | cons a t ih =>
    cases h : p a <;> simp [List.filter_cons, h] <;> omega

theorem parseRows_characterization (hdr : List String) (rows : List (List String))
    (hcount : hdr.count "email" = 1)
    (hlen : ∀ row ∈ rows, hdr.length ≤ row.length) :
    parseRows hdr rows = Except.ok
      ((rows.filter (fun row => rowValid hdr row)).map
          (fun row => (processPairs (hdr.zip row)).1),
        (rows.filter (fun row => !(rowValid hdr row))).map
          (fun row => rowEmail hdr row)) := by
  induction rows with
  | nil => rfl
  | cons row rest ih =>
    have h1 := processRow_single_email hdr row hcount (hlen row (List.mem_cons_self row rest))
    have h2 := ih (fun r hr => hlen r (List.mem_cons_of_mem row hr))
    rw [parseRows, h1, h2]
    cases hv : rowValid hdr row with
    | true => simp [List.filter_cons, hv]
    | false => simp [List.filter_cons, hv]

/-- Claim C7: loading a header row plus data rows (each at least as long as
the header, the header naming `email` exactly once) yields exactly the valid
rows' records, in row order, and writes exactly the invalid rows' email
values to the bad-email sink; every row contributes to exactly one of the
two. -/
theorem C7_loader_split_valid_invalid (hdr : List String) (rows : List (List String))
    (hcount : hdr.count "email" = 1)
    (hlen : ∀ row ∈ rows, hdr.length ≤ row.length) :
    parse_csv (hdr :: rows) = Except.ok
      ((rows.filter (fun row => rowValid hdr row)).map
          (fun row => (processPairs (hdr.zip row)).1),
        (rows.filter (fun row => !(rowValid hdr row))).map
          (fun row => rowEmail hdr row))
    ∧ (rows.filter (fun row => rowValid hdr row)).length
        + (rows.filter (fun row => !(rowValid hdr row))).length = rows.length := by
  constructor
  · exact parseRows_characterization hdr rows hcount hlen
  · exact filter_length_split _ rows

/-- Witness for C7: a file with header `name,email`, one valid row and one
invalid row yields exactly that one record and that one bad-email line. -/
theorem C7_loader_split_valid_invalid_witness :
    parse_csv [["name", "email"], ["Ann", "ann@x.com"], ["Bad", "not-an-email"]]
      = Except.ok ([[("name", "Ann"), ("email", "ann@x.com")]], ["not-an-email"]) := by
  have h := (C7_loader_split_valid_invalid ["name", "email"]
    [["Ann", "ann@x.com"], ["Bad", "not-an-email"]] (by decide) (by decide)).1
  rw [h]
  rfl

/-- Claim C3 (code bug): in retry mode the loader executes
`csv_file.write('')` at end-of-file, which changes nothing: the retry file is
*not* truncated after loading — its contents are exactly what they were. -/
theorem C3_retry_file_not_truncated :
    (∀ content : String, retryFileAfterLoad content = content)
    ∧ retryFileAfterLoad "Ann,ann@x.com\r\n" = "Ann,ann@x.com\r\n"
    ∧ ("Ann,ann@x.com\r\n" : String) ≠ "" := by
  have hmain : ∀ content : String, retryFileAfterLoad content = content := by
    intro content
    show String.mk (content.data.take content.data.length ++ ([] : List Char)
      ++ content.data.drop (content.data.length + 0)) = content
    simp
  exact ⟨hmain, hmain _, by decide⟩

/-- Claim C2 (code bug): `_retry_handler` opens the retry sink with the
binary mode `'wb+'` together with `encoding='utf-8'`, which raises
`ValueError` in python 3 — and the mode truncates rather than appends — so a
failed recipient is never appended to the retry sink. -/
theorem C2_retry_handler_value_error (recipient_data : Dict) :
    retry_handler recipient_data = Except.error PyErr.valueError := rfl

theorem repGo_fuel (t v : List Char) (n : Nat) :
    ∀ l : List Char, l.length ≤ n → repGo t v n l = replaceAll t v l := by
  induction n using Nat.strong_induction_on with
  | _ n ih =>
    intro l hl
    cases l with
    | nil => cases n <;> rfl
    | cons c cs =>
      cases n with
      | zero => simp at hl
      | succ m =>
        have hcs : cs.length ≤ m := by simpa using hl
        rw [show replaceAll t v (c :: cs) = repGo t v (c :: cs).length (c :: cs) from rfl]
        simp only [repGo, List.length_cons]
        by_cases hc : (t.isPrefixOf (c :: cs) && !t.isEmpty) = true
        · rw [if_pos hc, if_pos hc]
          have ht1 : 1 ≤ t.length := by
            rcases bandE hc with ⟨-, h2⟩
            cases t with
            | nil => simp at h2
            | cons a b => simp
          have hdl : (List.drop t.length (c :: cs)).length ≤ cs.length := by
            rw [List.length_drop]
            simp only [List.length_cons]
            omega
          rw [ih m (Nat.lt_succ_self m) _ (le_trans hdl hcs)]
          rw [ih cs.length (Nat.lt_succ_of_le hcs) _ hdl]
        · rw [if_neg hc, if_neg hc]
          rw [ih m (Nat.lt_succ_self m) cs hcs,
            ih cs.length (Nat.lt_succ_of_le hcs) cs le_rfl]

theorem replaceAll_cons (t v : List Char) (c : Char) (cs : List Char) (ht : t ≠ []) :
    replaceAll t v (c :: cs)
      = if t <+: (c :: cs) then v ++ replaceAll t v ((c :: cs).drop t.length)
        else c :: replaceAll t v cs := by
  have hte : (!t.isEmpty) = true := by
    cases t with
    | nil => exact absurd rfl ht
    | cons a b => rfl
  have ht1 : 1 ≤ t.length := by
    cases t with
    | nil => exact absurd rfl ht
    | cons a b => simp
  show repGo t v (cs.length + 1) (c :: cs) = _
  simp only [repGo, hte, Bool.and_true]
  by_cases hp : t <+: (c :: cs)
  · have hpb : t.isPrefixOf (c :: cs) = true := List.isPrefixOf_iff_prefix.mpr hp
    rw [if_pos hpb, if_pos hp]
    have hdl : ((c :: cs).drop t.length).length ≤ cs.length := by
      simp only [List.length_drop, List.length_cons]
      omega
    rw [repGo_fuel t v cs.length _ hdl]
  · have hpb : ¬ t.isPrefixOf (c :: cs) = true := fun h =>
      hp (List.isPrefixOf_iff_prefix.mp h)
    rw [if_neg hpb, if_neg hp]
    rw [repGo_fuel t v cs.length cs le_rfl]

theorem replaceAll_nil (t v : List Char) : replaceAll t v [] = [] := rfl

/-- If no occurrence of `t` starts inside `s` (also not one running past the
end of `s` into `X`), `replaceAll` passes `s` through untouched. -/
theorem replaceAll_passes (t v : List Char) (ht : t ≠ []) (s X : List Char)
    (h : ∀ a b, s = a ++ b → b ≠ [] → ¬ (t <+: b ++ X)) :
    replaceAll t v (s ++ X) = s ++ replaceAll t v X := by
  induction s with
  | nil => simp
  | cons c cs ih =>
    rw [List.cons_append, replaceAll_cons t v c (cs ++ X) ht]
    have hnp : ¬ (t <+: c :: (cs ++ X)) := by
      have := h [] (c :: cs) rfl (List.cons_ne_nil c cs)
      simpa using this
    rw [if_neg hnp]
    have hrest : ∀ a b, cs = a ++ b → b ≠ [] → ¬ (t <+: b ++ X) := by
      intro a b hab hb
      exact h (c :: a) b (by rw [hab, List.cons_append]) hb
    rw [ih hrest, List.cons_append]

/-- `replaceAll` replaces a token sitting at the head. -/
theorem replaceAll_head (t v X : List Char) (ht : t ≠ []) :
    replaceAll t v (t ++ X) = v ++ replaceAll t v X := by
  cases t with
  | nil => exact absurd rfl ht
  | cons c cs =>
    rw [List.cons_append, replaceAll_cons (c :: cs) v c (cs ++ X) ht]
    rw [if_pos (by exact List.prefix_append (c :: cs) X)]
    congr 1
    rw [show c :: (cs ++ X) = (c :: cs) ++ X from rfl, List.drop_left]

theorem token_eq (k : List Char) :
    token k = '<' :: '!' :: '-' :: '-' :: (k ++ markerR) := rfl

theorem token_ne_nil (k : List Char) : token k ≠ [] := by
  rw [token_eq]
  exact List.cons_ne_nil _ _

theorem token_prefix_head (k : List Char) (c : Char) (l : List Char)
    (h : token k <+: c :: l) : c = '<' := by
  rw [token_eq] at h
  exact (List.cons_prefix_cons.mp h).1.symm

theorem no_tok_start_safe (k v' X : List Char) (hsafe : v'.all isSafeValChar = true) :
    ∀ a b, v' = a ++ b → b ≠ [] → ¬ (token k <+: b ++ X) := by
  intro a b hab hb hpre
  cases b with
  | nil => exact hb rfl
  | cons bh bt =>
    have hc : bh = '<' := token_prefix_head k bh (bt ++ X) (by simpa using hpre)
    have hmem : bh ∈ v' := by
      rw [hab]
      exact List.mem_append_right a (List.mem_cons_self bh bt)
    have hsafec := List.all_eq_true.mp hsafe bh hmem
    rw [hc] at hsafec
    exact absurd hsafec (by decide)

theorem token_tail_no_lt (κ : List Char) (hκ : κ.all isKeyChar = true)
    (c : Char) (hc : c ∈ ('!' :: '-' :: '-' :: (κ ++ markerR))) : ¬ c = '<' := by
  intro h
  subst h
  rcases List.mem_cons.mp hc with h1 | hc
  · exact absurd h1 (by decide)
  rcases List.mem_cons.mp hc with h1 | hc
  · exact absurd h1 (by decide)
  rcases List.mem_cons.mp hc with h1 | hc
  · exact absurd h1 (by decide)
  rcases List.mem_append.mp hc with hc | hc
  · exact absurd (List.all_eq_true.mp hκ '<' hc) (by decide)
  · exact absurd hc (by decide)

theorem keyR_mismatch :
    ∀ (k κ X : List Char), k.all isKeyChar = true → κ.all isKeyChar = true →
      ¬ k = κ → ¬ ((k ++ markerR) <+: (κ ++ (markerR ++ X))) := by
  intro k
  induction k with
  | nil =>
    intro κ X hk hκ hne hpre
    cases κ with
    | nil => exact hne rfl
    | cons d κ' =>
      have hd : ('-' : Char) = d := by
        have hpre' : ('-' :: ('-' :: '>' :: [])) <+: d :: (κ' ++ (markerR ++ X)) := by
          simpa [markerR] using hpre
        exact (List.cons_prefix_cons.mp hpre').1
      have hkey := List.all_eq_true.mp hκ d (List.mem_cons_self d κ')
      rw [← hd] at hkey
      exact absurd hkey (by decide)
  | cons c k' ih =>
    intro κ X hk hκ hne hpre
    cases κ with
    | nil =>
      have hc : c = '-' := by
        have hpre' : (c :: (k' ++ markerR)) <+: ('-' :: ('-' :: '>' :: X)) := by
          simpa [markerR] using hpre
        exact (List.cons_prefix_cons.mp hpre').1
      have hkey := List.all_eq_true.mp hk c (List.mem_cons_self c k')
      rw [hc] at hkey
      exact absurd hkey (by decide)
    | cons d κ' =>
      have hpre' : (c :: (k' ++ markerR)) <+: d :: (κ' ++ (markerR ++ X)) := by
        simpa using hpre
      obtain ⟨hcd, htail⟩ := List.cons_prefix_cons.mp hpre'
      have hk' : k'.all isKeyChar = true :=
        List.all_eq_true.mpr (fun x hx => List.all_eq_true.mp hk x (List.mem_cons_of_mem c hx))
      have hκ' : κ'.all isKeyChar = true :=
        List.all_eq_true.mpr (fun x hx => List.all_eq_true.mp hκ x (List.mem_cons_of_mem d hx))
      have hne' : ¬ k' = κ' := by
        intro h
        exact hne (by rw [hcd, h])
      exact ih κ' X hk' hκ' hne' htail

theorem token_not_prefix_other (k κ X : List Char)
    (hk : k.all isKeyChar = true) (hκ : κ.all isKeyChar = true) (hne : ¬ k = κ) :
    ¬ (token k <+: token κ ++ X) := by
  intro hpre
  apply keyR_mismatch k κ X hk hκ hne
  have hass : markerL ++ (k ++ markerR) <+: markerL ++ (κ ++ (markerR ++ X)) := by
    simpa [token, List.append_assoc] using hpre
  exact (List.prefix_append_right_inj markerL).mp hass

theorem headSafe_not_bang_dash (X : List Char) (hX : headSafe X) (c : Char)
    (hc : c = '!' ∨ c = '-') (r : List Char) (h : (c :: r) <+: X) : False := by
  cases X with
  | nil => exact (List.cons_ne_nil c r) (List.prefix_nil.mp h)
  | cons xh xt =>
    have h1 := (List.cons_prefix_cons.mp h).1
    rcases hX xh rfl with h2 | h2
    · rcases hc with rfl | rfl
      · rw [← h1] at h2
        exact absurd h2 (by decide)
      · rw [← h1] at h2
        exact absurd h2 (by decide)
    · rcases hc with rfl | rfl
      · rw [← h1] at h2
        exact absurd h2 (by decide)
      · rw [← h1] at h2
        exact absurd h2 (by decide)

theorem containsSub_of_leading (pat b : List Char) (h : pat <+: b) (hpat : pat ≠ []) :
    containsSub pat b = true := by
  cases b with
  | nil => exact absurd (List.prefix_nil.mp h) hpat
  | cons c cs =>
    unfold containsSub
    rw [List.isPrefixOf_iff_prefix.mpr h]
    rfl

theorem containsSub_append (pat a b : List Char) (h : containsSub pat b = true) :
    containsSub pat (a ++ b) = true := by
  induction a with
  | nil => simpa using h
  | cons c cs ih =>
    rw [List.cons_append]
    unfold containsSub
    rw [ih, Bool.or_true]

theorem no_tok_start_lit (k s X : List Char) (hs : litOk s = true) (hX : headSafe X) :
    ∀ a b, s = a ++ b → b ≠ [] → ¬ (token k <+: b ++ X) := by
  intro a b hab hb hpre
  have hml0 : markerL <+: token k :=
    (List.prefix_append markerL k).trans (List.prefix_append (markerL ++ k) markerR)
  have hml : markerL <+: b ++ X := hml0.trans hpre
  by_cases hlen : 4 ≤ b.length
  · have hmb : markerL <+: b :=
      List.prefix_of_prefix_length_le hml (List.prefix_append b X)
        (by simpa [markerL] using hlen)
    have hcontains : containsSub markerL s = true := by
      rw [hab]
      exact containsSub_append markerL a b
        (containsSub_of_leading markerL b hmb (by simp [markerL]))
    rw [litOk, hcontains] at hs
    exact absurd hs (by decide)
  · cases b with
    | nil => exact hb rfl
    | cons b1 bt =>
      rw [List.cons_append] at hml
      obtain ⟨-, hml1⟩ := List.cons_prefix_cons.mp hml
      cases bt with
      | nil =>
        exact headSafe_not_bang_dash X hX '!' (Or.inl rfl) ['-', '-'] hml1
      | cons b2 bt2 =>
        rw [List.cons_append] at hml1
        obtain ⟨-, hml2⟩ := List.cons_prefix_cons.mp hml1
        cases bt2 with
        | nil =>
          exact headSafe_not_bang_dash X hX '-' (Or.inr rfl) ['-'] hml2
        | cons b3 bt3 =>
          rw [List.cons_append] at hml2
          obtain ⟨-, hml3⟩ := List.cons_prefix_cons.mp hml2
          cases bt3 with
          | nil =>
            exact headSafe_not_bang_dash X hX '-' (Or.inr rfl) [] hml3
          | cons b4 bt4 =>
            exact hlen (by simp)

theorem renderSegs_lit (items : List (List Char × List Char)) (s : List Char)
    (r : List Seg) :
    renderSegs items (Seg.lit s :: r) = s ++ renderSegs items r := rfl

theorem renderSegs_ph (items : List (List Char × List Char)) (k : List Char)
    (r : List Seg) :
    renderSegs items (Seg.ph k :: r)
      = (lookupKey items k).getD (token k) ++ renderSegs items r := rfl

theorem lookupKey_mem (items : List (List Char × List Char)) (κ v' : List Char)
    (h : lookupKey items κ = some v') : ∃ p ∈ items, p.2 = v' := by
  unfold lookupKey at h
  cases hf : items.find? (fun p => p.1 == κ) with
  | none => rw [hf] at h; exact absurd h (by simp)
  | some p =>
    rw [hf] at h
    refine ⟨p, List.mem_of_find?_eq_some hf, ?_⟩
    simpa using h

theorem lookupKey_not_mem (items : List (List Char × List Char)) (κ : List Char)
    (h : κ ∉ items.map (fun p => p.1)) : lookupKey items κ = none := by
  unfold lookupKey
  rw [List.find?_eq_none.mpr]
  · rfl
  · intro p hp hbeq
    exact h (List.mem_map.mpr ⟨p, hp, (beq_iff_eq.mp hbeq)⟩)

theorem lookupKey_cons_pos (q : List Char × List Char)
    (rest : List (List Char × List Char)) (κ : List Char)
    (hq : (q.1 == κ) = true) : lookupKey (q :: rest) κ = some q.2 := by
  unfold lookupKey
  rw [List.find?_cons]
  rw [hq]
  rfl

theorem lookupKey_cons_neg (q : List Char × List Char)
    (rest : List (List Char × List Char)) (κ : List Char)
    (hq : (q.1 == κ) = false) : lookupKey (q :: rest) κ = lookupKey rest κ := by
  unfold lookupKey
  rw [List.find?_cons]
  rw [hq]

theorem lookupKey_append_some (items l2 : List (List Char × List Char))
    (κ v' : List Char) (h : lookupKey items κ = some v') :
    lookupKey (items ++ l2) κ = some v' := by
  induction items with
  | nil => simp [lookupKey] at h
  | cons q rest ih =>
    cases hq : (q.1 == κ) with
    | true =>
      rw [lookupKey_cons_pos q rest κ hq] at h
      rw [List.cons_append, lookupKey_cons_pos q (rest ++ l2) κ hq]
      exact h
    | false =>
      rw [lookupKey_cons_neg q rest κ hq] at h
      rw [List.cons_append, lookupKey_cons_neg q (rest ++ l2) κ hq]
      exact ih h

theorem lookupKey_append_none_ne (items : List (List Char × List Char))
    (k v κ : List Char) (h : lookupKey items κ = none) (hne : ¬ κ = k) :
    lookupKey (items ++ [(k, v)]) κ = none := by
  induction items with
  | nil =>
    rw [List.nil_append, lookupKey_cons_neg ((k, v)) [] κ (by simpa using fun hx => hne hx.symm)]
    rfl
  | cons q rest ih =>
    cases hq : (q.1 == κ) with
    | true =>
      rw [lookupKey_cons_pos q rest κ hq] at h
      exact absurd h (by simp)
    | false =>
      rw [lookupKey_cons_neg q rest κ hq] at h
      rw [List.cons_append, lookupKey_cons_neg q (rest ++ [(k, v)]) κ hq]
      exact ih h

theorem lookupKey_append_self (items : List (List Char × List Char))
    (k v : List Char) (h : lookupKey items k = none) :
    lookupKey (items ++ [(k, v)]) k = some v := by
  induction items with
  | nil =>
    rw [List.nil_append, lookupKey_cons_pos ((k, v)) [] k (by simp)]
  | cons q rest ih =>
    cases hq : (q.1 == k) with
    | true =>
      rw [lookupKey_cons_pos q rest k hq] at h
      exact absurd h (by simp)
    | false =>
      rw [lookupKey_cons_neg q rest k hq] at h
      rw [List.cons_append, lookupKey_cons_neg q (rest ++ [(k, v)]) k hq]
      exact ih h

theorem renderSegs_headSafe (items : List (List Char × List Char))
    (hitems : ∀ p ∈ items,
      p.1.all isKeyChar = true ∧ p.2 ≠ [] ∧ p.2.all isSafeValChar = true)
    (rest : List Seg)
    (hnotlit : ∀ s r, rest ≠ Seg.lit s :: r) :
    headSafe (renderSegs items rest) := by
  cases rest with
  | nil =>
    intro c hc
    simp [renderSegs] at hc
  | cons sg rest' =>
    cases sg with
    | lit s => exact absurd rfl (hnotlit s rest')
    | ph κ =>
      intro c hc
      rw [renderSegs_ph] at hc
      cases hlook : lookupKey items κ with
      | none =>
        rw [hlook, Option.getD_none, token_eq, List.cons_append] at hc
        simp only [List.head?_cons] at hc
        exact Or.inl (by injection hc with h; exact h.symm)
      | some v' =>
        obtain ⟨p, hp, hpv⟩ := lookupKey_mem items κ v' hlook
        obtain ⟨-, hvne, hvsafe⟩ := hitems p hp
        have hvne2 : v' ≠ [] := by rw [← hpv]; exact hvne
        have hvsafe2 : v'.all isSafeValChar = true := by rw [← hpv]; exact hvsafe
        rw [hlook, Option.getD_some] at hc
        cases v' with
        | nil => exact absurd rfl hvne2
        | cons vh vt =>
          rw [List.cons_append] at hc
          simp only [List.head?_cons] at hc
          have hcv : c = vh := by injection hc with h; exact h.symm
          refine Or.inr ?_
          rw [hcv]
          exact List.all_eq_true.mp hvsafe2 vh (List.mem_cons_self vh vt)

theorem replaceAll_token_renderSegs (k v : List Char)
    (items : List (List Char × List Char))
    (hk : k.all isKeyChar = true) (_hv : v ≠ []) (_hvs : v.all isSafeValChar = true)
    (hitems : ∀ p ∈ items,
      p.1.all isKeyChar = true ∧ p.2 ≠ [] ∧ p.2.all isSafeValChar = true)
    (hlook : lookupKey items k = none) :
    ∀ segs : List Seg, segsOkB segs = true →
      replaceAll (token k) v (renderSegs items segs)
        = renderSegs (items ++ [(k, v)]) segs := by
  intro segs
  induction segs with
  | nil => intro _; rfl
  | cons sg rest ih =>
    intro hsegs
    cases sg with
    | lit s =>
      have hsegs' : ((litOk s && notLitHead rest) && segsOkB rest) = true := hsegs
      obtain ⟨h12, hrest⟩ := bandE hsegs'
      obtain ⟨hlit, hadj⟩ := bandE h12
      have hnotlit : ∀ s' r', rest ≠ Seg.lit s' :: r' := by
        intro s' r' hEq
        rw [hEq] at hadj
        simp [notLitHead] at hadj
      have hhs : headSafe (renderSegs items rest) :=
        renderSegs_headSafe items hitems rest hnotlit
      rw [renderSegs_lit,
        replaceAll_passes (token k) v (token_ne_nil k) s _
          (no_tok_start_lit k s _ hlit hhs),
        ih hrest, renderSegs_lit]
    | ph κ =>
      have hsegs' : (κ.all isKeyChar && segsOkB rest) = true := hsegs
      obtain ⟨hκ, hrest⟩ := bandE hsegs'
      by_cases hkκ : κ = k
      · subst hkκ
        rw [renderSegs_ph, hlook, Option.getD_none,
          replaceAll_head (token κ) v _ (token_ne_nil κ),
          ih hrest, renderSegs_ph,
          lookupKey_append_self items κ v hlook, Option.getD_some]
      · cases hlookκ : lookupKey items κ with
        | some v' =>
          obtain ⟨p, hp, hpv⟩ := lookupKey_mem items κ v' hlookκ
          obtain ⟨-, hvne, hvsafe⟩ := hitems p hp
          have hvne' : v' ≠ [] := by rw [← hpv]; exact hvne
          have hvsafe' : v'.all isSafeValChar = true := by rw [← hpv]; exact hvsafe
          rw [renderSegs_ph, hlookκ, Option.getD_some,
            replaceAll_passes (token k) v (token_ne_nil k) v' _
              (no_tok_start_safe k v' _ hvsafe'),
            ih hrest, renderSegs_ph,
            lookupKey_append_some items [(k, v)] κ v' hlookκ, Option.getD_some]
        | none =>
          have hnostart : ∀ a b, token κ = a ++ b → b ≠ [] →
              ¬ (token k <+: b ++ renderSegs items rest) := by
            intro a b hab hb hpre
            cases a with
            | nil =>
              have hbtok : b = token κ := by simpa using hab.symm
              rw [hbtok] at hpre
              exact token_not_prefix_other k κ _ hk hκ
                (fun h => hkκ h.symm) hpre
            | cons ah at' =>
              cases b with
              | nil => exact hb rfl
              | cons bh bt =>
                rw [token_eq, List.cons_append] at hab
                injection hab with hah htk
                have hbh_mem : bh ∈ ('!' :: '-' :: '-' :: (κ ++ markerR)) := by
                  rw [htk]
                  exact List.mem_append_right at' (List.mem_cons_self bh bt)
                have hbh_lt : bh = '<' :=
                  token_prefix_head k bh _ (by simpa using hpre)
                exact token_tail_no_lt κ hκ bh hbh_mem hbh_lt
          rw [renderSegs_ph, hlookκ, Option.getD_none,
            replaceAll_passes (token k) v (token_ne_nil k) (token κ) _ hnostart,
            ih hrest, renderSegs_ph,
            lookupKey_append_none_ne items k v κ hlookκ hkκ, Option.getD_none]

theorem renderSegs_nil_items (segs : List Seg) :
    renderSegs [] segs = flattenSegs segs := by
  induction segs with
  | nil => rfl
  | cons sg rest ih =>
    cases sg with
    | lit s =>
      rw [renderSegs_lit, ih]
      rfl
    | ph k =>
      rw [renderSegs_ph,
        show lookupKey ([] : List (List Char × List Char)) k = none from rfl,
        Option.getD_none, ih]
      rfl

theorem renderItems_aux (segs : List Seg) (hsegs : segsOkB segs = true) :
    ∀ (todo done : List (List Char × List Char)),
      (∀ p ∈ done ++ todo,
        p.1.all isKeyChar = true ∧ p.2 ≠ [] ∧ p.2.all isSafeValChar = true) →
      ((done ++ todo).map (fun p => p.1)).Nodup →
      todo.foldl (fun acc kv => replaceAll (token kv.1) kv.2 acc) (renderSegs done segs)
        = renderSegs (done ++ todo) segs := by
  intro todo
  induction todo with
  | nil =>
    intro done _ _
    simp
  | cons q todo' ih =>
    intro done hgood hnd
    rw [List.foldl_cons]
    have hqmem : q ∈ done ++ q :: todo' :=
      List.mem_append_right done (List.mem_cons_self q todo')
    obtain ⟨hqk, hqv, hqvs⟩ := hgood q hqmem
    have hlook : lookupKey done q.1 = none := by
      apply lookupKey_not_mem
      intro hmem
      rw [List.map_append] at hnd
      have hdisj := List.disjoint_of_nodup_append hnd
      refine hdisj hmem ?_
      rw [List.map_cons]
      exact List.mem_cons_self q.1 _
    have hstep := replaceAll_token_renderSegs q.1 q.2 done hqk hqv hqvs
      (fun p hp => hgood p (List.mem_append_left _ hp)) hlook segs hsegs
    rw [hstep]
    have hassoc : done ++ q :: todo' = (done ++ [q]) ++ todo' := by simp
    rw [hassoc] at hgood hnd
    rw [show done ++ q :: todo' = (done ++ [q]) ++ todo' from by simp]
    exact ih (done ++ [q]) hgood hnd

theorem renderItems_eq_renderSegs (items : List (List Char × List Char))
    (segs : List Seg)
    (hitems : ∀ p ∈ items,
      p.1.all isKeyChar = true ∧ p.2 ≠ [] ∧ p.2.all isSafeValChar = true)
    (hnd : (items.map (fun p => p.1)).Nodup)
    (hsegs : segsOkB segs = true) :
    renderItems items (flattenSegs segs) = renderSegs items segs := by
  unfold renderItems
  have h := renderItems_aux segs hsegs items [] (by simpa using hitems)
    (by simpa using hnd)
  rw [renderSegs_nil_items] at h
  simpa using h

/-- Claim C8 counterexample: substitution is sequential per key, not the
claimed simultaneous replacement.  For the template `<!--a-->` and the record
`a ↦ "<!--b-->", b ↦ "X"`, the claim's reading leaves `<!--b-->` (the value
of the only token occurrence, other characters untouched), but the code's
second `str.replace` pass rewrites the freshly inserted value, producing
`X`. -/
theorem C8_renderer_counterexample :
    htmlRender (flattenSegs [Seg.ph ['a']]) [(['a'], token ['b']), (['b'], ['X'])]
      = Except.ok ['X']
    ∧ renderSegs [(['a'], token ['b']), (['b'], ['X'])] [Seg.ph ['a']] = token ['b']
    ∧ (['X'] : List Char) ≠ token ['b'] :=
  ⟨rfl, rfl, by decide⟩

/-- Claim C8 (amended): rendering applies the record's keys sequentially, in
record order; provided the template decomposes into marker-free literal
segments and placeholder tokens with identifier keys, and the record has
distinct identifier keys and nonempty values containing none of `<`, `!`,
`-`, the result is the template with every occurrence of each bound key's
token replaced by that key's value and every other character — including
unbound-key tokens — left unchanged. -/
theorem C8_renderer_sequential_amended (items : List (List Char × List Char))
    (segs : List Seg)
    (hitems : ∀ p ∈ items,
      p.1.all isKeyChar = true ∧ p.2 ≠ [] ∧ p.2.all isSafeValChar = true)
    (hnd : (items.map (fun p => p.1)).Nodup)
    (hsegs : segsOkB segs = true)
    (hne : flattenSegs segs ≠ []) :
    htmlRender (flattenSegs segs) items = Except.ok (renderSegs items segs) := by
  unfold htmlRender
  rw [if_neg (fun h => hne (List.isEmpty_iff.mp h))]
  exact congrArg Except.ok (renderItems_eq_renderSegs items segs hitems hnd hsegs)

/-- Witness for C8 (amended) at a concrete template `hi <!--name-->.` and
record `name ↦ Ann`. -/
theorem C8_renderer_sequential_amended_witness :
    htmlRender
        (flattenSegs [Seg.lit ['h', 'i', ' '], Seg.ph ['n', 'a', 'm', 'e'], Seg.lit ['.']])
        [(['n', 'a', 'm', 'e'], ['A', 'n', 'n'])]
      = Except.ok (renderSegs [(['n', 'a', 'm', 'e'], ['A', 'n', 'n'])]
          [Seg.lit ['h', 'i', ' '], Seg.ph ['n', 'a', 'm', 'e'], Seg.lit ['.']]) :=
  C8_renderer_sequential_amended _ _ (by decide) (by decide) (by decide) (by decide)

/-- Claim C5 (code bug): with the shipped config the reply-to attribute read
raises `AttributeError`; with reply-to configured empty, the derived record
has no `reply-to` key and `_form_email`'s strict `recipient_data['reply-to']`
raises `KeyError`.  Either way, an absent reply-to is an error rather than a
message without a `Reply-To` header. -/
theorem C5_replyto_absent_raises :
    prepRecipient srcConfig annRec = Except.error PyErr.attributeError
    ∧ prepRecipient emptyReplyConfig annRec
        = Except.ok [("name", "Ann"), ("email", "ann@x.com"),
            ("recipient", "Ann <ann@x.com>"),
            ("sender", "Company Name <company@example.com>")]
    ∧ dictGet [("name", "Ann"), ("email", "ann@x.com"),
        ("recipient", "Ann <ann@x.com>"),
        ("sender", "Company Name <company@example.com>")] "reply-to" = none
    ∧ form_email ['x'] "s"
        [("name", "Ann"), ("email", "ann@x.com"), ("recipient", "Ann <ann@x.com>"),
          ("sender", "Company Name <company@example.com>")]
        = Except.error PyErr.keyError :=
  ⟨rfl, rfl, rfl, rfl⟩

/-- Claim C1 (code bug): a delivery failure aborts the whole run.  With a
completed config and a failing transport, the first failed attempt raises
`NameError` (the handler's logging line references the undefined name
`recipient`), nothing is written to the retry sink, and the second recipient
is never processed. -/
theorem C1_delivery_failure_aborts_run :
    (sendRun fullConfig (fun _ => false) ['x'] "s" [annRec, annRec]).2
        = some PyErr.nameError
    ∧ (sendRun fullConfig (fun _ => false) ['x'] "s" [annRec, annRec]).1
        = [Ev.statsWrite "TOTAL RECIPIENTS", Ev.statsWrite "START TIME",
            Ev.sessOpen, Ev.sendFail]
    ∧ (sendRun fullConfig (fun _ => false) ['x'] "s" [annRec, annRec]).1.count
        Ev.retryWrite = 0
    ∧ (sendRun fullConfig (fun _ => false) ['x'] "s" [annRec, annRec]).1.count
        Ev.sessOpen = 1 :=
  ⟨rfl, rfl, rfl, rfl⟩

/-- Claim C10 (code bug): the shipped `config.py` defines no `SEND_DELAY`,
so after the first successful send `sleep(config.SEND_DELAY)` raises
`AttributeError`: no delay ever elapses between attempts (the second of the
two configured attempts never happens). -/
theorem C10_missing_send_delay_aborts :
    (sendRun noDelayConfig (fun _ => true) ['x'] "s" [annRec]).2
        = some PyErr.attributeError
    ∧ (sendRun noDelayConfig (fun _ => true) ['x'] "s" [annRec]).1.count
        Ev.sleepDelay = 0
    ∧ (sendRun noDelayConfig (fun _ => true) ['x'] "s" [annRec]).1.count
        Ev.sendOk = 1
    ∧ noDelayConfig.nb_emails_per_recipient = 2 :=
  ⟨rfl, rfl, rfl, rfl⟩

/-- Claim C9 counterexample: the session of a failed attempt is never
closed — the run's trace has one `sessOpen` and no `sessClose`, so it is not
the case that every attempt's session is closed. -/
theorem C9_failed_attempt_session_not_closed :
    (¬ ∀ (cfg : Config) (oracle : Nat → Bool) (tpl : List Char) (subject : String)
        (recipients : List Dict),
        (sendRun cfg oracle tpl subject recipients).1.count Ev.sessOpen
          = (sendRun cfg oracle tpl subject recipients).1.count Ev.sessClose)
    ∧ (sendRun fullConfig (fun _ => false) ['x'] "s" [annRec]).1.count Ev.sessOpen = 1
    ∧ (sendRun fullConfig (fun _ => false) ['x'] "s" [annRec]).1.count Ev.sessClose = 0 := by
  refine ⟨?_, rfl, rfl⟩
  intro h
  have hc := h fullConfig (fun _ => false) ['x'] "s" [annRec]
  rw [show (sendRun fullConfig (fun _ => false) ['x'] "s" [annRec]).1.count Ev.sessOpen
      = 1 from rfl,
    show (sendRun fullConfig (fun _ => false) ['x'] "s" [annRec]).1.count Ev.sessClose
      = 0 from rfl] at hc
  exact absurd hc (by decide)

theorem sessFold_append (l1 l2 : List Ev) (s : Option Bool) :
    sessFold s (l1 ++ l2) = sessFold (sessFold s l1) l2 := by
  induction l1 generalizing s with
  | nil =>
    cases s with
    | none => rfl
    | some b => rfl
  | cons e l1' ih =>
    cases s with
    | none => simp [sessFold]
    | some b =>
      cases e <;> cases b <;> simp [sessFold, ih]

theorem sessFold_attemptPre (cfg : Config) :
    sessFold (some false) (attemptPre cfg) = some true := by
  unfold attemptPre
  by_cases h1 : cfg.encrypt_mode ≠ "none" <;>
    by_cases h2 : cfg.encrypt_mode = "starttls" <;>
    by_cases h3 : cfg.smtp_user ≠ "" ∧ cfg.smtp_password ≠ "" <;>
    simp [h1, h2, h3, sessFold]

theorem sessFold_attempt_true (cfg : Config) (n : Nat)
    (hd : cfg.send_delay = some n) :
    (attempt cfg true).2 = none
    ∧ sessFold (some false) (attempt cfg true).1 = some false := by
  unfold attempt
  rw [hd]
  refine ⟨rfl, ?_⟩
  rw [show (if true = true then
      (attemptPre cfg
        ++ [Ev.sendOk, Ev.sessClose, Ev.statsWrite "LAST RECIPIENT", Ev.sleepDelay],
        (none : Option PyErr))
      else (attemptPre cfg ++ [Ev.sendFail], some PyErr.nameError)).1
    = attemptPre cfg
        ++ [Ev.sendOk, Ev.sessClose, Ev.statsWrite "LAST RECIPIENT", Ev.sleepDelay]
    from rfl]
  rw [sessFold_append, sessFold_attemptPre]
  rfl

theorem attemptsLoop_ok (cfg : Config) (oracle : Nat → Bool)
    (hor : ∀ i, oracle i = true) (m : Nat) (hd : cfg.send_delay = some m) :
    ∀ n i, (attemptsLoop cfg oracle n i).2 = none
      ∧ sessFold (some false) (attemptsLoop cfg oracle n i).1 = some false := by
  intro n
  induction n with
  | zero => exact fun i => ⟨rfl, rfl⟩
  | succ k ih =>
    intro i
    obtain ⟨ha2, ha1⟩ := sessFold_attempt_true cfg m hd
    have hi := ih (i + 1)
    simp only [attemptsLoop, hor i, ha2]
    refine ⟨hi.1, ?_⟩
    rw [sessFold_append, ha1]
    exact hi.2

theorem dictGet_dictSet_self (d : Dict) (k v : String) :
    dictGet (dictSet d k v) k = some v := by
  induction d with
  | nil =>
    unfold dictSet dictGet
    simp
  | cons q rest ih =>
    by_cases hq : (q.1 == k) = true
    · unfold dictSet
      rw [if_pos (by simp [List.any_cons, hq])]
      rw [List.map_cons, if_pos hq]
      unfold dictGet
      rw [List.find?_cons]
      simp
    · by_cases hrest : rest.any (fun p => p.1 == k) = true
      · unfold dictSet
        rw [if_pos (by simp [List.any_cons, hq, hrest])]
        rw [List.map_cons, if_neg hq]
        unfold dictGet
        rw [List.find?_cons]
        rw [show (q.1 == k) = false from by simpa using hq]
        have hih := ih
        unfold dictSet at hih
        rw [if_pos hrest] at hih
        unfold dictGet at hih
        exact hih
      · unfold dictSet
        rw [if_neg (by simp [List.any_cons, hq, hrest])]
        rw [List.cons_append]
        unfold dictGet
        rw [List.find?_cons]
        rw [show (q.1 == k) = false from by simpa using hq]
        have hih := ih
        unfold dictSet at hih
        rw [if_neg hrest] at hih
        unfold dictGet at hih
        exact hih

theorem prep_ok (cfg : Config) (r : Dict) (rte rtn : String)
    (he : cfg.replyto_email = some rte) (hrte : rte ≠ "")
    (hn : cfg.replyto_name = some rtn) :
    ∃ d, prepRecipient cfg r = Except.ok d
      ∧ dictGet d "reply-to" = some (rtn ++ " <" ++ rte ++ ">") := by
  unfold prepRecipient
  rw [he]
  simp only [if_pos hrte]
  rw [hn]
  exact ⟨_, rfl, dictGet_dictSet_self _ _ _⟩

theorem form_ok (tpl : List Char) (subject : String) (d : Dict) (rto : String)
    (htpl : tpl ≠ []) (hrto : dictGet d "reply-to" = some rto) :
    ∃ m, form_email tpl subject d = Except.ok m := by
  unfold form_email htmlRender
  rw [if_neg (fun h => htpl (List.isEmpty_iff.mp h))]
  rw [hrto]
  exact ⟨_, rfl⟩

theorem recipLoop_ok (cfg : Config) (oracle : Nat → Bool) (tpl : List Char)
    (subject : String) (hor : ∀ i, oracle i = true) (m : Nat)
    (hd : cfg.send_delay = some m) (rte rtn : String)
    (he : cfg.replyto_email = some rte) (hrte : rte ≠ "")
    (hn : cfg.replyto_name = some rtn) (htpl : tpl ≠ []) :
    ∀ (rs : List Dict) (i : Nat),
      (recipLoop cfg oracle tpl subject rs i).2 = none
      ∧ sessFold (some false) (recipLoop cfg oracle tpl subject rs i).1 = some false := by
  intro rs
  induction rs with
  | nil => exact fun i => ⟨rfl, rfl⟩
  | cons r rest ih =>
    intro i
    obtain ⟨d, hpd, hrto⟩ := prep_ok cfg r rte rtn he hrte hn
    obtain ⟨msg, hfm⟩ := form_ok tpl subject d _ htpl hrto
    obtain ⟨ha2, ha1⟩ :=
      attemptsLoop_ok cfg oracle hor m hd cfg.nb_emails_per_recipient i
    have hrest := ih (i + cfg.nb_emails_per_recipient)
    simp only [recipLoop, hpd, hfm, ha2]
    refine ⟨hrest.1, ?_⟩
    rw [sessFold_append, ha1]
    exact hrest.2

/-- Claim C9 (amended): every attempt opens a fresh session; on successful
attempts the session is closed before the next attempt begins, so a run
whose attempts all succeed obeys strict open/close discipline (never two
opens without a close between, ending closed).  On a failed attempt the
session is not closed (see the counterexample). -/
theorem C9_sessions_amended (cfg : Config) (oracle : Nat → Bool) (tpl : List Char)
    (subject : String) (recipients : List Dict)
    (hmode : cfg.encrypt_mode = "none" ∨ cfg.encrypt_mode = "ssl"
      ∨ cfg.encrypt_mode = "starttls")
    (hor : ∀ i, oracle i = true) (m : Nat) (hd : cfg.send_delay = some m)
    (rte rtn : String) (he : cfg.replyto_email = some rte) (hrte : rte ≠ "")
    (hn : cfg.replyto_name = some rtn) (htpl : tpl ≠ []) :
    (sendRun cfg oracle tpl subject recipients).2 = none
    ∧ sessFold (some false) (sendRun cfg oracle tpl subject recipients).1
        = some false := by
  have hrl := recipLoop_ok cfg oracle tpl subject hor m hd rte rtn he hrte hn htpl
    recipients 0
  unfold sendRun
  rw [if_pos hmode]
  refine ⟨hrl.1, ?_⟩
  show sessFold (some false)
    ([Ev.statsWrite "TOTAL RECIPIENTS", Ev.statsWrite "START TIME"]
      ++ (recipLoop cfg oracle tpl subject recipients 0).1) = some false
  rw [sessFold_append]
  exact hrl.2

/-- Witness for C9 (amended): the all-success two-recipient run with the
completed config ends without error and with balanced sessions. -/
theorem C9_sessions_amended_witness :
    (sendRun fullConfig (fun _ => true) ['x'] "s" [annRec, annRec]).2 = none
    ∧ sessFold (some false)
        (sendRun fullConfig (fun _ => true) ['x'] "s" [annRec, annRec]).1
      = some false :=
  C9_sessions_amended fullConfig (fun _ => true) ['x'] "s" [annRec, annRec]
    (Or.inl rfl) (fun _ => rfl) 1 rfl "reply@example.com" "Reply" rfl
    (by decide) rfl (by decide)

end PyMailer
